import Mathlib

/-!
# Verification of the `booleanium` 2QBF solver against its specification

This file embeds the data model and the operations of the `booleanium`
repository (a 2QBF solver based on incremental determinization, written in
Rust) as Lean definitions and proves or refutes the claims of its
natural-language specification.

Conventions of the embedding:
* Rust `u32`/`usize` counters are modelled as `Nat` and `i32`/`i64` values as
  `Int`; bounds that the Rust code checks explicitly (`TryFrom`, range tests)
  are modelled by the same explicit tests.
* `Vec` is a `List`; `VarVec<T>`/`LitVec<T>` (dense arrays indexed by
  variable or literal, grown with default values by `set_var_count`) are
  modelled either as `List`s or as total functions with the default value,
  as noted at each use.
* Rust panics (`expect`, `assert!`, failing `unwrap`) are modelled by
  `Except String` with the panic message as the error payload.
* The SAT oracle is an abstract trait in the source (`SatSolver`); it is
  modelled by explicit state (its accumulated clause list) plus function
  parameters standing for the answers of its `solve_with_assumptions` and
  `model` entry points.
-/

namespace Booleanium

/-- `SolverResult` from `src/lib.rs`. -/
inductive SolverResult where
  | Satisfiable
  | Unsatisfiable
  | Unknown
  deriving DecidableEq, Repr

/-- `QuantTy` from `src/quantifier.rs`. -/
inductive QuantTy where
  | Exists
  | Forall
  deriving DecidableEq, Repr

/-- `Var` from `src/literal.rs`: a `u32` index. The bound
`MAX_VAR = (u32::MAX >> 1) - 1` is kept as a separate constant; `from_index`
asserts it, which only matters at the explicit boundary claims. -/
structure Var where
  index : Nat
  deriving DecidableEq, Repr

/-- `Var::MAX_VAR.index = (u32::MAX >> 1) - 1`. -/
def Var.MAX_VAR_index : Nat := (2 ^ 32 - 1) / 2 - 1

/-- `Var::to_dimacs`: `index + 1` as a signed integer. -/
def Var.toDimacs (v : Var) : Int := (v.index : Int) + 1

/-- `Var::from_dimacs` (for positive input): index `var - 1`. -/
def Var.fromDimacs (v : Int) : Var := ⟨(v - 1).toNat⟩

/-- `Lit` from `src/literal.rs`: `repr = (index << 1) | (!polarity)`. -/
structure Lit where
  repr : Nat
  deriving DecidableEq, Repr

/-- `Lit::from_var(variable, polarity)`. -/
def Lit.fromVar (v : Var) (polarity : Bool) : Lit :=
  ⟨v.index * 2 + (if polarity then 0 else 1)⟩

/-- `Lit::positive`. -/
def Lit.positive (v : Var) : Lit := Lit.fromVar v true

/-- `Lit::negative`. -/
def Lit.negative (v : Var) : Lit := Lit.fromVar v false

/-- `Lit::var`: `repr >> 1`. -/
def Lit.var (l : Lit) : Var := ⟨l.repr / 2⟩

/-- `Lit::is_negative`: low bit set. -/
def Lit.isNegative (l : Lit) : Bool := l.repr % 2 == 1

/-- `Lit::negated` / `Not for Lit`: `repr ^ 1`. -/
def Lit.negated (l : Lit) : Lit := ⟨l.repr ^^^ 1⟩

/-- `Lit::to_dimacs`. -/
def Lit.toDimacs (l : Lit) : Int :=
  if l.isNegative then -l.var.toDimacs else l.var.toDimacs

/-- `Lit::from_dimacs`: `from_var(Var::from_dimacs(lit.abs()), lit > 0)`. -/
def Lit.fromDimacs (v : Int) : Lit :=
  Lit.fromVar (Var.fromDimacs v.natAbs) (decide (v > 0))

/-- `Lit::MIN_LIT = Lit::negative(Var::MAX_VAR)`. -/
def Lit.MIN_LIT : Lit := Lit.negative ⟨Var.MAX_VAR_index⟩

/-- `Lit::MAX_LIT = Lit::positive(Var::MAX_VAR)`. -/
def Lit.MAX_LIT : Lit := Lit.positive ⟨Var.MAX_VAR_index⟩

/-- Rust's `Iterator::max` on a list of `Nat` (the maximum, `none` when the
iterator is empty). -/
def iterMax : List Nat → Option Nat
  | [] => none
  | x :: xs =>
    match iterMax xs with
    | none => some x
    | some m => some (max x m)

/-- Rust's `Iterator::max` on a list of `Int`. -/
def iterMaxInt : List Int → Option Int
  | [] => none
  | x :: xs =>
    match iterMaxInt xs with
    | none => some x
    | some m => some (max x m)

theorem iterMax_eq_none_iff {L : List Nat} : iterMax L = none ↔ L = [] := by
  cases L with
  | nil => simp [iterMax]
  | cons a as =>
    simp only [iterMax]
    cases h : iterMax as <;> simp

theorem iterMax_le_of_mem {L : List Nat} {x m : Nat}
    (hx : x ∈ L) (hm : iterMax L = some m) : x ≤ m := by
  induction L generalizing m with
  | nil => cases hx
  | cons a as ih =>
    unfold iterMax at hm
    rcases List.mem_cons.mp hx with hx | hx
    · subst hx
      cases h : iterMax as with
      | none => rw [h] at hm; cases hm; exact Nat.le_refl _
      | some m' => rw [h] at hm; cases hm; exact Nat.le_max_left _ _
    · cases h : iterMax as with
      | none =>
        exact absurd (iterMax_eq_none_iff.mp h) (List.ne_nil_of_mem hx)
      | some m' =>
        rw [h] at hm; cases hm
        exact Nat.le_trans (ih hx h) (Nat.le_max_right _ _)

theorem iterMax_mem {L : List Nat} {m : Nat} (hm : iterMax L = some m) : m ∈ L := by
  induction L generalizing m with
  | nil => simp [iterMax] at hm
  | cons a as ih =>
    unfold iterMax at hm
    cases h : iterMax as with
    | none => rw [h] at hm; cases hm; exact List.mem_cons_self _ _
    | some m' =>
      rw [h] at hm; cases hm
      rcases max_choice a m' with hc | hc
      · rw [hc]; exact List.mem_cons_self _ _
      · rw [hc]; exact List.mem_cons_of_mem _ (ih h)

/-! ## Trail and decision levels (`src/qcdcl/propagation/trail.rs`) -/

/-- A decision level (`DecLvl`), a plain index; `DecLvl::ROOT = 0`. -/
abbrev DecLvl := Nat

/-- `Trail`: chronological list of assigned literals plus the trail indices
at which decisions were made. -/
structure TrailS where
  trail : List Lit
  decisions : List Nat
  deriving DecidableEq, Repr

/-- `Trail::decision_level`: number of decision markers. -/
def TrailS.decisionLevel (t : TrailS) : DecLvl := t.decisions.length

/-- `Trail::push`. -/
def TrailS.push (t : TrailS) (l : Lit) : TrailS :=
  { t with trail := t.trail ++ [l] }

/-- `Trail::add_decision`: record the current trail length as a decision
index, then push. -/
def TrailS.addDecision (t : TrailS) (l : Lit) : TrailS :=
  { trail := t.trail ++ [l], decisions := t.decisions ++ [t.trail.length] }

/-- `Trail::backtrack_to(lvl, callback)`: reads `decisions[lvl]` (a panic if
out of bounds, modelled as `none`), truncates both lists, and reports the
popped literals in reverse chronological order (the order in which the Rust
callback sees them). Returns the new trail and the popped literals. -/
def TrailS.backtrackTo (t : TrailS) (lvl : DecLvl) : Option (TrailS × List Lit) :=
  match t.decisions[lvl]? with
  | none => none
  | some trailIdx =>
    some ({ trail := t.trail.take trailIdx, decisions := t.decisions.take lvl },
          (t.trail.drop trailIdx).reverse)

/-! ## Scopes, the quantifier prefix and universal reduction
(`src/incdet.rs`, `IncDet::_quantify` and `IncDet::_add_clause`) -/

/-- `Scope` from `src/incdet.rs` (field `id` mirrors `ScopeId`; the field
called `variables` in the source is named `vars` here because `variables`
is a reserved word in Lean). -/
structure ScopeS where
  id : Nat
  quantifier : QuantTy
  vars : List Var
  deriving DecidableEq, Repr

/-- `VarData::is_existential` given the scope id of a bound variable:
`prefix[scope].quantifier == Exists`. (The Rust slice indexing panics when
the scope id is out of bounds; `get?` returning `none` is treated as
non-existential here, a case that never arises for scopes created by
`_quantify`.) -/
def isExistentialAt (pfx : List QuantTy) (scope : Nat) : Bool :=
  decide (pfx.get? scope = some QuantTy.Exists)

/-- `VarData::is_universal` = negation of `is_existential`. -/
def isUniversalAt (pfx : List QuantTy) (scope : Nat) : Bool :=
  !(isExistentialAt pfx scope)

/-- The maximum scope id among the existential literals of a clause —
`lits.iter().filter(is_existential).map(scope).max()` in `_add_clause`. -/
def maxExistentialScope (pfx : List QuantTy) (scopeOf : Var → Nat)
    (lits : List Lit) : Option Nat :=
  iterMax ((lits.filter fun l => isExistentialAt pfx (scopeOf l.var)).map
    fun l => scopeOf l.var)

/-- The universal-reduction step of `IncDet::_add_clause`
(`src/incdet.rs:179-192`), applied to the sorted, deduplicated,
non-tautological literal list: if some existential literal exists, retain
exactly the literals whose scope id is at most the maximal existential scope
id; otherwise leave the list unchanged and set the `conflicted` flag.
Returns `(new literal list, conflicted)`. -/
def universalReduce (pfx : List QuantTy) (scopeOf : Var → Nat)
    (lits : List Lit) : List Lit × Bool :=
  match maxExistentialScope pfx scopeOf lits with
  | some maxScope => (lits.filter fun l => decide (scopeOf l.var ≤ maxScope), false)
  | none => (lits, true)

/-- Insertion sort of literals by their `repr` (models `sort_unstable`,
whose order on `Lit` is the derived order on `repr`). -/
def insertLit (l : Lit) : List Lit → List Lit
  | [] => [l]
  | x :: xs => if l.repr ≤ x.repr then l :: x :: xs else x :: insertLit l xs

/-- `lits.sort_unstable()` as insertion sort. -/
def sortLits : List Lit → List Lit
  | [] => []
  | x :: xs => insertLit x (sortLits xs)

/-- `Vec::dedup`: remove consecutive duplicates (after sorting this removes
all duplicates). -/
def dedupAdj : List Lit → List Lit
  | [] => []
  | [a] => [a]
  | a :: b :: rest =>
    if a = b then dedupAdj (b :: rest) else a :: dedupAdj (b :: rest)

/-- The sort-plus-dedup preprocessing of `_add_clause`. -/
def sortDedup (lits : List Lit) : List Lit := dedupAdj (sortLits lits)

/-- The tautology test of `_add_clause`: consecutive literals that are
negations of each other. -/
def isTautology (lits : List Lit) : Bool :=
  (lits.zip lits.tail).any fun p => p.1 = p.2.negated

/-! ## Solver entry (`IncDet::_solve`, `src/incdet.rs:278-287`) and the
structures it reads -/

/-- The part of the `IncDet` solver state needed before the search loop.
`varScopes` models the `VarData.scope` field of the `VarVec<VarData>`
(total function with the default `None`, together with the explicit
`varCount` maintained by `set_var_count`). -/
structure IncDetS where
  varCount : Nat
  varScopes : Var → Option Nat
  prefixS : List ScopeS
  clauses : List Nat
  allocator : List (List Lit)
  conflicted : Bool

/-- `VarData::scope` + `is_existential` as they are used by
`build_vsids_heap` and `build_watchlist`: `scope` panics (message
"all variables are bound") when the variable is unbound, and the prefix
slice indexing panics when the scope id is out of range. -/
def isExistentialData (pfx : List ScopeS) (scope? : Option Nat) :
    Except String Bool :=
  match scope? with
  | none => .error "all variables are bound"
  | some sc =>
    match pfx.get? sc with
    | none => .error "index out of bounds"
    | some scope => .ok (scope.quantifier == QuantTy.Exists)

/-- `IncDet::build_vsids_heap`: iterate all variables, add the existential
ones to the VSIDS heap. Returns the list of added variables, or the panic
raised by `VarData::scope` on an unbound variable. -/
def buildVsidsHeap (s : IncDetS) : Except String (List Var) :=
  (List.range s.varCount).foldlM
    (fun acc i => do
      let b ← isExistentialData s.prefixS (s.varScopes ⟨i⟩)
      pure (if b then acc ++ [Var.mk i] else acc))
    []

/-- `IncDet::build_watchlist`: for every stored long clause take the first
two existential literals (a panic when fewer exist). Returns the watch
entries `(literal, clause id)`. -/
def buildWatchlist (s : IncDetS) : Except String (List (Lit × Nat)) :=
  s.clauses.foldlM
    (fun acc cid => do
      let lits := (s.allocator.getD cid [])
      let ex ← lits.foldlM
        (fun (exl : List Lit) l => do
          let b ← isExistentialData s.prefixS (s.varScopes l.var)
          pure (if b then exl ++ [l] else exl))
        []
      match ex with
      | w1 :: w2 :: _ => pure (acc ++ [(w1, cid), (w2, cid)])
      | _ => .error "every clause has at least 2 existential variables")
    []

/-- The entry of `IncDet::_solve` (`src/incdet.rs:278-287`): the more-than-
two-scopes check, then the parse-time `conflicted` check, then the
construction of the watch list and the VSIDS heap. `.ok (some r)` models an
early return with result `r` before the search loop; `.ok none` models
falling through into the search loop; `.error` models a panic. -/
def solveHeader (s : IncDetS) : Except String (Option SolverResult) :=
  if s.prefixS.length > 2 then .ok (some SolverResult.Unknown)
  else if s.conflicted then .ok (some SolverResult.Unsatisfiable)
  else do
    let _ ← buildWatchlist s
    let _ ← buildVsidsHeap s
    .ok none

/-! ## Claim C1 -/

/-- C1: `IncDet::_solve` first returns `Unknown` when the prefix has more
than two scopes; otherwise, when the parse-time `conflicted` flag is set, it
returns `Unsatisfiable`; both returns happen in that order of precedence and
before the watch list, the VSIDS heap or the search loop are touched. -/
theorem solve_entry_order (s : IncDetS) :
    (s.prefixS.length > 2 →
      solveHeader s = .ok (some SolverResult.Unknown)) ∧
    (s.prefixS.length ≤ 2 → s.conflicted = true →
      solveHeader s = .ok (some SolverResult.Unsatisfiable)) := by
  constructor
  · intro h
    simp [solveHeader, h]
  · intro h hc
    have hn : ¬ s.prefixS.length > 2 := by omega
    simp [solveHeader, hn, hc]

def scopeU : ScopeS := ⟨0, QuantTy.Forall, []⟩

def stateThreeScopes : IncDetS :=
  ⟨0, fun _ => none, [scopeU, scopeU, scopeU], [], [], true⟩

def stateConflicted : IncDetS :=
  ⟨0, fun _ => none, [scopeU], [], [], true⟩

theorem solve_entry_order_witness :
    solveHeader stateThreeScopes = .ok (some SolverResult.Unknown) ∧
    solveHeader stateConflicted = .ok (some SolverResult.Unsatisfiable) :=
  ⟨(solve_entry_order stateThreeScopes).1 (by decide),
   (solve_entry_order stateConflicted).2 (by decide) rfl⟩

/-! ## Claim C2 -/

theorem filter_scope_le_eq (pfx : List QuantTy) (scopeOf : Var → Nat)
    (lits : List Lit) (smax : Nat)
    (hmax : maxExistentialScope pfx scopeOf lits = some smax) :
    (lits.filter fun l => decide (scopeOf l.var ≤ smax)) =
      lits.filter
        (fun l => !(isUniversalAt pfx (scopeOf l.var) &&
          decide (smax < scopeOf l.var))) := by
  apply List.filter_congr
  intro l hl
  by_cases hex : isExistentialAt pfx (scopeOf l.var) = true
  · have hmem : scopeOf l.var ∈
        (lits.filter fun l => isExistentialAt pfx (scopeOf l.var)).map
          (fun l => scopeOf l.var) :=
      List.mem_map_of_mem _ (List.mem_filter.mpr ⟨hl, hex⟩)
    have hle : scopeOf l.var ≤ smax := iterMax_le_of_mem hmem hmax
    simp [isUniversalAt, hex, hle]
  · have hu : isUniversalAt pfx (scopeOf l.var) = true := by
      simp [isUniversalAt, Bool.not_eq_true] at hex ⊢
      exact hex
    simp only [hu, Bool.true_and]
    by_cases hlt : smax < scopeOf l.var
    · simp [hlt, Nat.not_le.mpr hlt]
    · simp [hlt, Nat.not_lt.mp hlt]

/-- C2: in `IncDet::_add_clause`, on the sorted and deduplicated literal
list: when an existential literal remains, universal reduction keeps exactly
the literals that are not universal literals with scope id greater than the
maximal existential scope id `smax` (in particular `conflicted` stays
clear); when no existential literal remains, the literal list is unchanged
and the `conflicted` flag is set (the empty clause, reported unsatisfiable
at `_solve` entry). -/
theorem universal_reduction_spec (pfx : List QuantTy) (scopeOf : Var → Nat)
    (lits0 : List Lit) :
    (∀ smax,
      maxExistentialScope pfx scopeOf (sortDedup lits0) = some smax →
      (universalReduce pfx scopeOf (sortDedup lits0)).2 = false ∧
      (universalReduce pfx scopeOf (sortDedup lits0)).1 =
        (sortDedup lits0).filter
          (fun l => !(isUniversalAt pfx (scopeOf l.var) &&
            decide (smax < scopeOf l.var)))) ∧
    (maxExistentialScope pfx scopeOf (sortDedup lits0) = none →
      (universalReduce pfx scopeOf (sortDedup lits0)).2 = true ∧
      (universalReduce pfx scopeOf (sortDedup lits0)).1 = sortDedup lits0) := by
  constructor
  · intro smax hmax
    constructor
    · simp [universalReduce, hmax]
    · simp only [universalReduce, hmax]
      exact filter_scope_le_eq pfx scopeOf (sortDedup lits0) smax hmax
  · intro hnone
    simp [universalReduce, hnone]

/-- A two-scope prefix with the existential block first (so that universal
reduction has something to drop): scope 0 is `e`, scope 1 is `a`. -/
def pfxEA : List QuantTy := [QuantTy.Exists, QuantTy.Forall]

/-- Scope binding for the witness: variable index = scope id. -/
def scopeOfIdx : Var → Nat := fun v => min v.index 1

theorem universal_reduction_spec_witness :
    ((universalReduce pfxEA scopeOfIdx
        (sortDedup [Lit.positive ⟨0⟩, Lit.positive ⟨1⟩])).2 = false ∧
      (universalReduce pfxEA scopeOfIdx
        (sortDedup [Lit.positive ⟨0⟩, Lit.positive ⟨1⟩])).1 =
        (sortDedup [Lit.positive ⟨0⟩, Lit.positive ⟨1⟩]).filter
          (fun l => !(isUniversalAt pfxEA (scopeOfIdx l.var) &&
            decide (0 < scopeOfIdx l.var)))) ∧
    ((universalReduce pfxEA scopeOfIdx
        (sortDedup [Lit.positive ⟨1⟩])).2 = true ∧
      (universalReduce pfxEA scopeOfIdx
        (sortDedup [Lit.positive ⟨1⟩])).1 = sortDedup [Lit.positive ⟨1⟩]) :=
  ⟨(universal_reduction_spec pfxEA scopeOfIdx
      [Lit.positive ⟨0⟩, Lit.positive ⟨1⟩]).1 0 (by decide),
   (universal_reduction_spec pfxEA scopeOfIdx
      [Lit.positive ⟨1⟩]).2 (by decide)⟩

/-! ## Skolem map, implication graph and conflict-check oracle backtracking
(`src/incdet/skolem.rs`, `src/incdet/graph.rs`,
`src/incdet/conflict/check.rs`) -/

/-- `Implications` (`src/incdet/skolem.rs`): per-literal
`BTreeMap<DecLvl, Vec<ClauseId>>`, modelled as an association list with
strictly increasing keys (the B-tree iteration order). -/
abbrev Implications := List (DecLvl × List Nat)

/-- `Implications::backtrack_to`: `split_off(&lvl.successor())` keeps every
entry with key `< lvl + 1`, i.e. `≤ lvl`. -/
def Implications.backtrackTo (m : Implications) (lvl : DecLvl) : Implications :=
  m.filter fun e => decide (e.1 ≤ lvl)

/-- `Skolem = LitVec<Implications>`, as the list of per-literal maps. -/
abbrev SkolemS := List Implications

/-- `Skolem::backtrack_to`: backtrack every per-literal map. -/
def SkolemS.backtrackTo (sk : SkolemS) (lvl : DecLvl) : SkolemS :=
  sk.map (Implications.backtrackTo · lvl)

/-- `Impl` (`src/incdet/graph.rs`): one antecedent edge. -/
structure ImplE where
  lit : Lit
  clause : Nat
  decLvl : DecLvl
  deriving DecidableEq, Repr

/-- `ImplGraph = LitVec<Vec<Impl>>`. -/
abbrev ImplGraphS := List (List ImplE)

/-- `ImplGraph::backtrack_to`: every per-literal list retains the
implications with `dec_lvl <= lvl`. -/
def ImplGraphS.backtrackTo (g : ImplGraphS) (lvl : DecLvl) : ImplGraphS :=
  g.map fun imps => imps.filter fun imp => decide (imp.decLvl ≤ lvl)

/-- `LookupSolver<S>` (`src/sat.rs`): the abstract SAT oracle, modelled by
the list of clauses it has accumulated (oracle literals are nonzero `Int`s,
negation is `Int` negation) plus the per-variable lookup table
(`var_lookup : VarVec<Option<S::Lit>>`) and the next fresh oracle variable. -/
structure LookupS where
  oracleClauses : List (List Int)
  varLookup : List (Option Int)
  nextVar : Nat
  deriving DecidableEq, Repr

/-- `ConflictCheck<S>` (`src/incdet/conflict/check.rs`): the lookup solver
plus the ordered map `DecLvl -> assumption literal`, modelled as an
association list with strictly increasing keys. -/
structure ConflictCheckS where
  satSolver : LookupS
  assumptions : List (DecLvl × Int)
  deriving DecidableEq, Repr

/-- `ConflictCheck::backtrack_to`: the entries with level `> lvl` are split
off, and for each of them the unit clause `¬assumption_lit` is added to the
oracle (permanently deactivating the clauses of that level). -/
def ConflictCheckS.backtrackTo (cc : ConflictCheckS) (lvl : DecLvl) :
    ConflictCheckS :=
  let dropped := cc.assumptions.filter fun e => decide (lvl < e.1)
  { satSolver :=
      { cc.satSolver with
        oracleClauses :=
          cc.satSolver.oracleClauses ++ dropped.map fun e => [-e.2] },
    assumptions := cc.assumptions.filter fun e => decide (e.1 ≤ lvl) }

/-! ## Claim C3 -/

/-- C3: after `backtrack_to(L)`, no Skolem entry, no implication-graph entry
and no conflict-check assumption-map entry has a decision level greater than
`L` (stated for every target level, so in particular for the levels strictly
below the current decision level). -/
theorem backtrack_removes_above_level (L : DecLvl) (sk : SkolemS)
    (g : ImplGraphS) (cc : ConflictCheckS) :
    (∀ m ∈ SkolemS.backtrackTo sk L, ∀ e ∈ m, e.1 ≤ L) ∧
    (∀ imps ∈ ImplGraphS.backtrackTo g L, ∀ imp ∈ imps, imp.decLvl ≤ L) ∧
    (∀ e ∈ (ConflictCheckS.backtrackTo cc L).assumptions, e.1 ≤ L) := by
  refine ⟨?_, ?_, ?_⟩
  · intro m hm e he
    rcases List.mem_map.mp hm with ⟨m0, _, rfl⟩
    exact of_decide_eq_true (List.mem_filter.mp he).2
  · intro imps himps imp hmem
    rcases List.mem_map.mp himps with ⟨imps0, _, rfl⟩
    exact of_decide_eq_true (List.mem_filter.mp hmem).2
  · intro e he
    simp only [ConflictCheckS.backtrackTo] at he
    exact of_decide_eq_true (List.mem_filter.mp he).2

def skolemW : SkolemS := [[(0, [0]), (2, [1])], [(1, [2])]]

def graphW : ImplGraphS := [[⟨Lit.positive ⟨0⟩, 0, 0⟩, ⟨Lit.positive ⟨0⟩, 1, 2⟩]]

def conflictCheckW : ConflictCheckS := ⟨⟨[], [], 0⟩, [(0, 1), (1, 2), (2, 3)]⟩

theorem backtrack_removes_above_level_witness :
    (∀ m ∈ SkolemS.backtrackTo skolemW 1, ∀ e ∈ m, e.1 ≤ 1) ∧
    (∀ imps ∈ ImplGraphS.backtrackTo graphW 1, ∀ imp ∈ imps, imp.decLvl ≤ 1) ∧
    (∀ e ∈ (ConflictCheckS.backtrackTo conflictCheckW 1).assumptions,
      e.1 ≤ 1) :=
  backtrack_removes_above_level 1 skolemW graphW conflictCheckW

/-! ## Claim C10 -/

/-- `ConflictAnalysis::get_backtrack_level`
(`src/incdet/conflict/analysis.rs:50-61`): the maximum recorded decision
level over the clause literals (`unwrap_or(ROOT)` for unset), excluding
`current_lvl`, defaulting to `ROOT`. -/
def getBacktrackLevel (clause : List Lit) (decLvls : Var → Option DecLvl)
    (currentLvl : DecLvl) : DecLvl :=
  (iterMax ((clause.map fun l => (decLvls l.var).getD 0).filter
    fun lvl => decide (lvl ≠ currentLvl))).getD 0

/-- `ConflictAnalysis::clause_max_dec_lvl`: the unfiltered maximum. -/
def clauseMaxDecLvl (clause : List Lit) (decLvls : Var → Option DecLvl) :
    DecLvl :=
  (iterMax (clause.map fun l => (decLvls l.var).getD 0)).getD 0

theorem getBacktrackLevel_lt (clause : List Lit)
    (decLvls : Var → Option DecLvl) (bound excl : DecLvl)
    (hb : 0 < bound) (hexcl : excl ≤ bound)
    (hle : ∀ l ∈ clause, (decLvls l.var).getD 0 ≤ excl) :
    getBacktrackLevel clause decLvls excl < bound := by
  unfold getBacktrackLevel
  cases hmax : iterMax ((clause.map fun l => (decLvls l.var).getD 0).filter
      fun lvl => decide (lvl ≠ excl)) with
  | none => simpa using hb
  | some m =>
    have hmem := iterMax_mem hmax
    have hne : m ≠ excl := of_decide_eq_true (List.mem_filter.mp hmem).2
    have hmem' := (List.mem_filter.mp hmem).1
    rcases List.mem_map.mp hmem' with ⟨l, hl, rfl⟩
    have h2 := hle l hl
    simp only [Option.getD_some]
    exact Nat.lt_of_lt_of_le (Nat.lt_of_le_of_ne h2 hne) hexcl

/-- C10: when `handle_conflict` runs at a non-root decision level and the
conflict analysis succeeds, the level returned by `get_backtrack_level` is
strictly below the current decision level — in the 1-UIP branches the
current level itself is excluded from the maximum, and in the
`current_level_count == 0` branch the maximum clause level (`≠ ROOT`) is
excluded, which is also below the current level — and therefore the
`decisions[lvl]` index inside `Trail::backtrack_to` is in bounds and that
call cannot panic. -/
theorem handle_conflict_backtrack_in_bounds (clause : List Lit)
    (decLvls : Var → Option DecLvl) (t : TrailS)
    (hroot : t.decisionLevel ≠ 0)
    (hle : ∀ l ∈ clause, (decLvls l.var).getD 0 ≤ t.decisionLevel) :
    (getBacktrackLevel clause decLvls t.decisionLevel < t.decisionLevel ∧
      (t.backtrackTo
        (getBacktrackLevel clause decLvls t.decisionLevel)).isSome) ∧
    (clauseMaxDecLvl clause decLvls ≠ 0 →
      getBacktrackLevel clause decLvls (clauseMaxDecLvl clause decLvls) <
        t.decisionLevel ∧
      (t.backtrackTo
        (getBacktrackLevel clause decLvls
          (clauseMaxDecLvl clause decLvls))).isSome) := by
  have hbt : ∀ lvl, lvl < t.decisionLevel → (t.backtrackTo lvl).isSome := by
    intro lvl hlvl
    have hlen : lvl < t.decisions.length := hlvl
    simp [TrailS.backtrackTo, List.getElem?_eq_getElem hlen]
  constructor
  · have hlt := getBacktrackLevel_lt clause decLvls t.decisionLevel
      t.decisionLevel (Nat.pos_of_ne_zero hroot) (le_refl _) hle
    exact ⟨hlt, hbt _ hlt⟩
  · intro hm0
    have hmle : clauseMaxDecLvl clause decLvls ≤ t.decisionLevel := by
      unfold clauseMaxDecLvl
      cases hmax : iterMax (clause.map fun l => (decLvls l.var).getD 0) with
      | none => simp
      | some m =>
        have hmem := iterMax_mem hmax
        rcases List.mem_map.mp hmem with ⟨l, hl, rfl⟩
        exact hle l hl
    have hlem : ∀ l ∈ clause,
        (decLvls l.var).getD 0 ≤ clauseMaxDecLvl clause decLvls := by
      intro l hl
      unfold clauseMaxDecLvl
      cases hmax : iterMax (clause.map fun l => (decLvls l.var).getD 0) with
      | none =>
        have hnil := iterMax_eq_none_iff.mp hmax
        rw [List.map_eq_nil_iff] at hnil
        subst hnil
        cases hl
      | some m =>
        exact iterMax_le_of_mem
          (List.mem_map_of_mem (fun l => (decLvls l.var).getD 0) hl) hmax
    have hlt := getBacktrackLevel_lt clause decLvls t.decisionLevel
      (clauseMaxDecLvl clause decLvls) (Nat.pos_of_ne_zero hroot) hmle hlem
    exact ⟨hlt, hbt _ hlt⟩

def trailW : TrailS :=
  ⟨[Lit.positive ⟨0⟩, Lit.positive ⟨1⟩], [0, 1]⟩

def decLvlsW : Var → Option DecLvl := fun v => if v.index = 0 then some 1 else none

theorem handle_conflict_backtrack_in_bounds_witness :
    (getBacktrackLevel [Lit.positive ⟨0⟩] decLvlsW trailW.decisionLevel <
        trailW.decisionLevel ∧
      (trailW.backtrackTo
        (getBacktrackLevel [Lit.positive ⟨0⟩] decLvlsW
          trailW.decisionLevel)).isSome) ∧
    (clauseMaxDecLvl [Lit.positive ⟨0⟩] decLvlsW ≠ 0 →
      getBacktrackLevel [Lit.positive ⟨0⟩] decLvlsW
          (clauseMaxDecLvl [Lit.positive ⟨0⟩] decLvlsW) <
        trailW.decisionLevel ∧
      (trailW.backtrackTo
        (getBacktrackLevel [Lit.positive ⟨0⟩] decLvlsW
          (clauseMaxDecLvl [Lit.positive ⟨0⟩] decLvlsW))).isSome) :=
  handle_conflict_backtrack_in_bounds [Lit.positive ⟨0⟩] decLvlsW trailW
    (by decide)
    (by intro l hl; fin_cases hl; decide)

/-! ## Assignment and the solver bookkeeping state
(`src/qcdcl/propagation/assignment.rs`, `IncDet::assign_and_propagate`,
`IncDet::backtrack_to`) -/

/-- `Value` from `src/qcdcl/propagation/assignment.rs`. -/
inductive Value where
  | True
  | False
  | PositiveImplications
  | NegativeImplications
  deriving DecidableEq, Repr

/-- `Assignment::assign_constant` on the per-variable map (modelled as a
total function with default `none`, matching the `VarVec`). -/
def assignConstant (a : Var → Option Value) (lit : Lit) : Var → Option Value :=
  Function.update a lit.var
    (some (if lit.isNegative then Value.False else Value.True))

/-- `Assignment::assign_function`. -/
def assignFunction (a : Var → Option Value) (lit : Lit) : Var → Option Value :=
  Function.update a lit.var
    (some (if lit.isNegative then Value.NegativeImplications
      else Value.PositiveImplications))

/-- The solver fields related by the C4 invariant: the trail, the
assignment map and the `dec_lvls` map. (`assign_and_propagate` and
`backtrack_to` also touch the VSIDS heap, the watch lists, the Skolem map
and the oracle, none of which occur in the invariant.) -/
structure SearchState where
  trailS : TrailS
  assignment : Var → Option Value
  decLvls : Var → Option DecLvl

/-- The bookkeeping performed by `IncDet::assign_and_propagate(lit,
is_decision, is_constant)` on the three C4 fields: push `lit` onto the
trail (as a decision when `is_decision`), set `Assignment[lit.var]` with
`assign_constant`/`assign_function`, and record
`dec_lvls[lit.var] = trail.decision_level()` (done first thing inside
`propagate_constant`/`propagate_function`). -/
def assignAndPropagateCore (s : SearchState) (lit : Lit)
    (isDecision isConstant : Bool) : SearchState :=
  let t := if isDecision then s.trailS.addDecision lit else s.trailS.push lit
  { trailS := t,
    assignment :=
      if isConstant then assignConstant s.assignment lit
      else assignFunction s.assignment lit,
    decLvls := Function.update s.decLvls lit.var (some t.decisionLevel) }

/-- The per-popped-literal callback of `IncDet::backtrack_to`: unassign the
variable and clear its `dec_lvls` entry (the VSIDS re-add and the oracle
`forget` touch other fields). -/
def clearVars (m : Var → Option α) : List Lit → Var → Option α
  | [] => m
  | p :: ps => clearVars (Function.update m p.var none) ps

/-- `IncDet::backtrack_to` restricted to the three C4 fields: `none` models
the `decisions[lvl]` panic inside `Trail::backtrack_to`. -/
def backtrackCore (s : SearchState) (lvl : DecLvl) : Option SearchState :=
  match s.trailS.backtrackTo lvl with
  | none => none
  | some (t, popped) =>
    some { trailS := t,
           assignment := clearVars s.assignment popped,
           decLvls := clearVars s.decLvls popped }

/-- The C4 invariant: for every variable the three facts
`dec_lvls[v].is_some()`, `Assignment[v] ≠ unset` and `v ∈ trail` are
equivalent. -/
def stateInvariant (s : SearchState) : Prop :=
  ∀ v : Var,
    ((s.decLvls v).isSome ↔ (s.assignment v).isSome) ∧
    ((s.assignment v).isSome ↔ v ∈ s.trailS.trail.map Lit.var)

theorem clearVars_apply (popped : List Lit) (m : Var → Option α) (v : Var) :
    clearVars m popped v =
      if v ∈ popped.map Lit.var then none else m v := by
  induction popped generalizing m with
  | nil => simp [clearVars]
  | cons p ps ih =>
    simp only [clearVars, List.map_cons, List.mem_cons]
    rw [ih]
    by_cases hv : v ∈ ps.map Lit.var
    · simp [hv]
    · by_cases hvp : v = p.var
      · simp [hv, hvp, Function.update_apply]
      · simp [hv, hvp, Function.update_apply]

/-! ## Claim C4 -/

/-- C4: the three-way equivalence `dec_lvls[v].is_some() ⇔
Assignment[v] ≠ unset ⇔ v ∈ trail` is preserved by the bookkeeping of
`assign_and_propagate` (for any literal, decision flag and constant flag)
and by `backtrack_to` (whenever its trail indexing does not panic), given
that no variable occurs twice on the trail. -/
theorem assignment_invariant_preserved (s : SearchState) (lit : Lit)
    (isDecision isConstant : Bool) (lvl : DecLvl)
    (hinv : stateInvariant s)
    (hnodup : (s.trailS.trail.map Lit.var).Nodup) :
    stateInvariant (assignAndPropagateCore s lit isDecision isConstant) ∧
    (∀ s', backtrackCore s lvl = some s' → stateInvariant s') := by
  constructor
  · intro v
    have htrail :
        (assignAndPropagateCore s lit isDecision isConstant).trailS.trail =
          s.trailS.trail ++ [lit] := by
      unfold assignAndPropagateCore TrailS.addDecision TrailS.push
      cases isDecision <;> simp
    by_cases hv : v = lit.var
    · subst hv
      constructor
      · unfold assignAndPropagateCore
        cases isConstant <;>
          simp [assignConstant, assignFunction, Function.update_apply]
      · rw [htrail]
        unfold assignAndPropagateCore
        cases isConstant <;>
          simp [assignConstant, assignFunction, Function.update_apply]
    · have hd :
          (assignAndPropagateCore s lit isDecision isConstant).decLvls v =
            s.decLvls v := by
        unfold assignAndPropagateCore
        simp [Function.update_apply, hv]
      have ha :
          (assignAndPropagateCore s lit isDecision isConstant).assignment v =
            s.assignment v := by
        unfold assignAndPropagateCore
        cases isConstant <;>
          simp [assignConstant, assignFunction, Function.update_apply, hv]
      rw [hd, ha, htrail]
      have hmem : v ∈ (s.trailS.trail ++ [lit]).map Lit.var ↔
          v ∈ s.trailS.trail.map Lit.var := by
        simp [hv]
      rw [hmem]
      exact hinv v
  · intro s' hs'
    unfold backtrackCore TrailS.backtrackTo at hs'
    cases hg : s.trailS.decisions[lvl]? with
    | none => rw [hg] at hs'; cases hs'
    | some trailIdx =>
      rw [hg] at hs'
      injection hs' with hs'
      subst hs'
      intro v
      have hsplit : s.trailS.trail =
          s.trailS.trail.take trailIdx ++ s.trailS.trail.drop trailIdx :=
        (List.take_append_drop trailIdx s.trailS.trail).symm
      have hcond : (v ∈ ((s.trailS.trail.drop trailIdx).reverse.map Lit.var)) ↔
          v ∈ (s.trailS.trail.drop trailIdx).map Lit.var := by
        rw [List.map_reverse]
        exact List.mem_reverse
      have hdisj : v ∈ (s.trailS.trail.take trailIdx).map Lit.var →
          v ∈ (s.trailS.trail.drop trailIdx).map Lit.var → False := by
        intro h1 h2
        have hnod : ((s.trailS.trail.take trailIdx).map Lit.var ++
            (s.trailS.trail.drop trailIdx).map Lit.var).Nodup := by
          rw [← List.map_append, ← hsplit]
          exact hnodup
        exact (List.nodup_append.mp hnod).2.2 h1 h2
      simp only [clearVars_apply]
      by_cases hp : v ∈ (s.trailS.trail.drop trailIdx).map Lit.var
      · rw [if_pos (hcond.mpr hp), if_pos (hcond.mpr hp)]
        refine ⟨Iff.rfl, ?_⟩
        simp only [Option.isSome_none, Bool.false_eq_true, false_iff]
        intro hmem
        exact hdisj hmem hp
      · rw [if_neg (fun h => hp (hcond.mp h)),
            if_neg (fun h => hp (hcond.mp h))]
        refine ⟨(hinv v).1, ?_⟩
        rw [(hinv v).2]
        constructor
        · intro hmem
          rw [hsplit, List.map_append, List.mem_append] at hmem
          rcases hmem with h | h
          · exact h
          · exact absurd h hp
        · intro hmem
          rw [hsplit, List.map_append, List.mem_append]
          exact Or.inl hmem

def emptySearchState : SearchState :=
  ⟨⟨[], []⟩, fun _ => none, fun _ => none⟩

theorem assignment_invariant_preserved_witness :
    stateInvariant
      (assignAndPropagateCore emptySearchState (Lit.positive ⟨0⟩) true false) ∧
    (∀ s', backtrackCore emptySearchState 0 = some s' → stateInvariant s') :=
  assignment_invariant_preserved emptySearchState (Lit.positive ⟨0⟩) true false 0
    (fun v => by simp [emptySearchState]) (by simp [emptySearchState])

/-! ## Claim C5 -/

/-- `LookupSolver::orig_model` (`src/sat.rs`): walk the per-variable lookup
table; a variable mapped to oracle literal `m` contributes its positive
literal when `m` is in the model, its negative literal when `¬m` is, and
nothing otherwise — the model restricted to the input variables. -/
def LookupS.origModel (ls : LookupS) (model : List Int) : List Lit :=
  ls.varLookup.enum.filterMap fun p =>
    match p.2 with
    | none => none
    | some mapped =>
      if model.contains mapped then some (Lit.positive ⟨p.1⟩)
      else if model.contains (-mapped) then some (Lit.negative ⟨p.1⟩)
      else none

/-- `ConflictCheck::solve(incremental_var)`
(`src/incdet/conflict/check.rs:52-70`): solve the oracle under the
assumption literals of all active levels plus the fresh guard `g`
(`incremental_var`). `oracleSat` and `oracleModel` stand for the answers of
the abstract oracle's `solve_with_assumptions` and `model` calls. On UNSAT
the function returns `None` and leaves the oracle state untouched; on SAT it
returns the model restricted to the input variables. -/
def ConflictCheckS.solveCall (cc : ConflictCheckS) (g : Int)
    (oracleSat : List (List Int) → List Int → Bool)
    (oracleModel : Option (List Int)) :
    Option (List Lit) × ConflictCheckS :=
  let assumps := cc.assumptions.map Prod.snd ++ [g]
  if oracleSat cc.satSolver.oracleClauses assumps = false then (none, cc)
  else
    match oracleModel with
    | none => (none, cc)
    | some m => (some (cc.satSolver.origModel m), cc)

def ccEmpty : ConflictCheckS := ⟨⟨[], [], 0⟩, []⟩

/-- C5 counterexample: when the oracle answers UNSAT, `ConflictCheck::solve`
returns no conflict but does NOT add the unit clause `¬g` to the oracle —
the oracle clause list stays empty instead of gaining `[-g]`. -/
theorem conflict_check_unsat_no_disable :
    (ConflictCheckS.solveCall ccEmpty 1 (fun _ _ => false) none).1 = none ∧
    ¬ ((ConflictCheckS.solveCall ccEmpty 1
          (fun _ _ => false) none).2.satSolver.oracleClauses =
        ccEmpty.satSolver.oracleClauses ++ [[-(1 : Int)]]) := by
  decide

/-- C5 (amended): when the incremental conflict check solves the oracle
under the active per-level assumption literals plus the fresh guard `g`:
SAT with a model means a conflict is raised with the model restricted to
the input variables as witness; UNSAT means no conflict is reported and the
oracle state is left unchanged (in particular `g` is not constrained
further — the code never adds the unit clause `¬g`). -/
theorem conflict_check_solve_spec (cc : ConflictCheckS) (g : Int)
    (oracleSat : List (List Int) → List Int → Bool) (m : List Int) :
    (oracleSat cc.satSolver.oracleClauses
        (cc.assumptions.map Prod.snd ++ [g]) = true →
      ConflictCheckS.solveCall cc g oracleSat (some m) =
        (some (cc.satSolver.origModel m), cc)) ∧
    (oracleSat cc.satSolver.oracleClauses
        (cc.assumptions.map Prod.snd ++ [g]) = false →
      ∀ om, ConflictCheckS.solveCall cc g oracleSat om = (none, cc)) := by
  constructor
  · intro hsat
    simp [ConflictCheckS.solveCall, hsat]
  · intro hunsat om
    simp [ConflictCheckS.solveCall, hunsat]

def ccLookupW : ConflictCheckS := ⟨⟨[[2]], [some 2], 3⟩, [(1, 3)]⟩

theorem conflict_check_solve_spec_witness :
    ConflictCheckS.solveCall ccLookupW 1 (fun _ _ => true) (some [2]) =
      (some (ccLookupW.satSolver.origModel [2]), ccLookupW) ∧
    ConflictCheckS.solveCall ccLookupW 1 (fun _ _ => false) none =
      (none, ccLookupW) :=
  ⟨(conflict_check_solve_spec ccLookupW 1 (fun _ _ => true) [2]).1 rfl,
   (conflict_check_solve_spec ccLookupW 1 (fun _ _ => false) [2]).2 rfl none⟩

/-! ## The variable heap (`src/datastructure/heap.rs`)

`VarHeap<T>` is generic over `T : Ord`; its two instantiations are
`VarHeap<usize>` and `VarHeap<NotNan<f64>>`. It is embedded here with `Int`
values (a linear order containing the `usize` values, with the same
comparison structure). The recursive `sift_up`/`sift_down` walks are given
an explicit fuel argument; every call site passes the heap size, which
bounds the recursion depth (each step moves at least one level). -/

/-- `VarHeap`: the parallel value vector, the heap array of variables, and
the position vector. -/
structure VarHeapZ where
  values : List Int
  heap : List Var
  positions : List (Option Nat)
  deriving DecidableEq, Repr

/-- `self.values[self.heap[i]]`: the score of the variable at heap
position `i`. -/
def valueAtPos (s : VarHeapZ) (i : Nat) : Int :=
  s.values.getD (s.heap.getD i ⟨0⟩).index 0

/-- The score of a variable (`self.values[var]`). -/
def valueOf (s : VarHeapZ) (v : Var) : Int :=
  s.values.getD v.index 0

/-- `VarHeap::swap(a, b)`: swap the heap entries and update both
positions. -/
def VarHeapZ.swapIdx (s : VarHeapZ) (a b : Nat) : VarHeapZ :=
  let va := s.heap.getD a ⟨0⟩
  let vb := s.heap.getD b ⟨0⟩
  { s with
    heap := (s.heap.set a vb).set b va,
    positions := (s.positions.set va.index (some b)).set vb.index (some a) }

/-- `VarHeap::sift_up(pos)`: while the value at `pos` exceeds its parent's,
swap upwards. -/
def siftUpF (fuel : Nat) (s : VarHeapZ) (pos : Nat) : VarHeapZ :=
  match fuel with
  | 0 => s
  | fuel + 1 =>
    if pos = 0 then s
    else
      let parent := (pos - 1) / 2
      if valueAtPos s parent < valueAtPos s pos then
        siftUpF fuel (s.swapIdx pos parent) parent
      else s

/-- `VarHeap::sift_down(pos)`: pick the largest among `pos` and its
children (left first, then right against the running largest), swap with it
and continue there. -/
def siftDownF (fuel : Nat) (s : VarHeapZ) (pos : Nat) : VarHeapZ :=
  match fuel with
  | 0 => s
  | fuel + 1 =>
    let li := 2 * pos + 1
    let largest1 :=
      if li < s.heap.length ∧ valueAtPos s pos < valueAtPos s li then li
      else pos
    let ri := 2 * pos + 2
    let largest2 :=
      if ri < s.heap.length ∧ valueAtPos s largest1 < valueAtPos s ri then ri
      else largest1
    if largest2 ≠ pos then siftDownF fuel (s.swapIdx pos largest2) largest2
    else s

/-- `VarHeap::add(var)`: no-op when already contained; otherwise push at the
end and sift up. -/
def VarHeapZ.add (s : VarHeapZ) (v : Var) : VarHeapZ :=
  match s.positions.getD v.index none with
  | some _ => s
  | none =>
    let idx := s.heap.length
    let s1 : VarHeapZ :=
      { s with heap := s.heap ++ [v], positions := s.positions.set v.index (some idx) }
    siftUpF s1.heap.length s1 idx

/-- `VarHeap::update_value(var, f)`: apply `f` to the stored value; when the
variable is in the heap, sift up on an increase (or equality) and sift down
on a decrease. -/
def VarHeapZ.updateValue (s : VarHeapZ) (v : Var) (f : Int → Int) : VarHeapZ :=
  let orig := s.values.getD v.index 0
  let newV := f orig
  let s1 : VarHeapZ := { s with values := s.values.set v.index newV }
  match s1.positions.getD v.index none with
  | some pos =>
    if newV ≥ orig then siftUpF s1.heap.length s1 pos
    else siftDownF s1.heap.length s1 pos
  | none => s1

/-- `VarHeap::add_and_set(var, value)`. -/
def VarHeapZ.addAndSet (s : VarHeapZ) (v : Var) (value : Int) : VarHeapZ :=
  match s.positions.getD v.index none with
  | some _ => s.updateValue v (fun _ => value)
  | none => VarHeapZ.add { s with values := s.values.set v.index value } v

/-- `VarHeap::remove(var)`: take the position (no-op when absent),
`swap_remove` the entry (move the last heap element into the hole, pop the
end), and — when the hole was not the last position — record the moved
variable's new position and sift it down. No sift up is performed. -/
def VarHeapZ.remove (s : VarHeapZ) (v : Var) : VarHeapZ :=
  match s.positions.getD v.index none with
  | none => s
  | some pos =>
    let s1 : VarHeapZ := { s with positions := s.positions.set v.index none }
    let lastVar := s1.heap.getLast?.getD ⟨0⟩
    let s2 : VarHeapZ := { s1 with heap := (s1.heap.set pos lastVar).dropLast }
    if pos ≥ s2.heap.length then s2
    else
      let movedVar := s2.heap.getD pos ⟨0⟩
      let s3 : VarHeapZ :=
        { s2 with positions := s2.positions.set movedVar.index (some pos) }
      siftDownF s3.heap.length s3 pos

/-- `VarHeap::peek`: the first heap entry, documented in the source as
"Returns the variable with the highest value". -/
def VarHeapZ.peek (s : VarHeapZ) : Option Var :=
  s.heap.head?

/-- `VarHeap::rescale(factor)`: multiply every stored value. -/
def VarHeapZ.rescale (s : VarHeapZ) (factor : Int) : VarHeapZ :=
  { s with values := s.values.map (· * factor) }

/-- The max-heap property of spec §8 invariant 6: every parent value is at
least the values of both children. -/
def VarHeapZ.heapProperty (s : VarHeapZ) : Bool :=
  (List.range s.heap.length).all fun i =>
    (!(decide (2 * i + 1 < s.heap.length)) ||
      decide (valueAtPos s (2 * i + 1) ≤ valueAtPos s i)) &&
    (!(decide (2 * i + 2 < s.heap.length)) ||
      decide (valueAtPos s (2 * i + 2) ≤ valueAtPos s i))

/-! ## Claim C6 -/

def heapEmpty7 : VarHeapZ := ⟨List.replicate 7 0, [], List.replicate 7 none⟩

/-- Seven variables added with scores `[30, 3, 25, 2, 1, 4, 24]`; the
resulting heap array is `[30, 3, 25, 2, 1, 4, 24]`, a valid max-heap. -/
def heapBuilt : VarHeapZ :=
  [(0, 30), (1, 3), (2, 25), (3, 2), (4, 1), (5, 4), (6, 24)].foldl
    (fun s p => s.addAndSet ⟨p.1⟩ p.2) heapEmpty7

def heapAfterRemove : VarHeapZ := heapBuilt.remove ⟨3⟩

def heapFinal : VarHeapZ := (heapAfterRemove.remove ⟨0⟩).remove ⟨2⟩

/-- C6 fails on the code: `VarHeap::remove` moves the last heap element
into the freed slot and only sifts it *down*, never up. Removing the
score-2 variable from the valid heap `[30, 3, 25, 2, 1, 4, 24]` moves the
score-24 element under the score-3 parent, violating the max-heap property.
The violation is observable: after further removing the score-30 and
score-25 variables, `peek` returns the variable with score 4 even though
the score-24 variable is still in the heap — contradicting `peek`'s own
documentation ("Returns the variable with the highest value"). -/
theorem varheap_remove_breaks_heap_property :
    heapBuilt.heapProperty = true ∧
    heapAfterRemove.heapProperty = false ∧
    heapFinal.peek = some ⟨5⟩ ∧
    (⟨6⟩ : Var) ∈ heapFinal.heap ∧
    valueOf heapFinal ⟨6⟩ = 24 ∧
    valueOf heapFinal ⟨5⟩ = 4 := by
  decide

/-! ## The QDIMACS parser (`src/qdimacs.rs`)

The parser reads a byte stream; here the input is a `List Nat` of byte
values. Error spans (byte offsets carried for diagnostics) are omitted, and
the `IO` failure variant cannot occur on an in-memory list. The recursive
reading loops take an explicit fuel argument; every loop iteration consumes
at least one input byte, so the top-level fuel `input.length + 1` can never
run out (fuel exhaustion is mapped to an error so that it is never silently
conflated with success). -/

/-- `HeaderError`: `badStart` is the source's `InvalidPrefix` ("`p cnf`
prefix missing or invalid"). -/
inductive HeaderErr where
  | badStart
  | invalidVariableCount
  | invalidClauseCount
  deriving DecidableEq, Repr

/-- `ParseError` without the span payloads. -/
inductive ParseErr where
  | invalidHeader (reason : HeaderErr)
  | missingHeader
  | unexpectedEndOfFile
  | unexpectedChar
  | invalidInt
  | variableOutOfBound (val : Int)
  | literalOutOfBound (val : Int)
  | numClausesMismatch (expected found : Nat)
  deriving DecidableEq, Repr

/-- `u8::is_ascii_whitespace`: space, tab, newline, form feed, carriage
return. -/
def isWsB (b : Nat) : Bool := b == 32 || b == 9 || b == 10 || b == 12 || b == 13

/-- ASCII digit. -/
def isDigitB (b : Nat) : Bool := 48 ≤ b && b ≤ 57

/-- The reading loop of `parse_int`: digits and at most one `-`, terminated
by whitespace (consumed) or end of input; any other byte is an invalid
integer, as is arithmetic overflow of the `i64` accumulator (`checked_mul` /
`checked_add`). -/
def parseIntLoop : List Nat → Int → Bool → Except ParseErr (Int × List Nat)
  | [], parsed, isNegated =>
    .ok ((if isNegated then -parsed else parsed), [])
  | b :: rest, parsed, isNegated =>
    if b == 45 then
      if isNegated then .error .invalidInt
      else parseIntLoop rest parsed true
    else if isDigitB b then
      let val : Int := (b : Int) - 48
      if parsed * 10 + val > 9223372036854775807 then .error .invalidInt
      else parseIntLoop rest (parsed * 10 + val) isNegated
    else if isWsB b then .ok ((if isNegated then -parsed else parsed), rest)
    else .error .invalidInt

/-- `parse_int::<I>` for a target type with range `[lo, hi]`: the final
`I::try_from` failure is reported as `LiteralOutOfBound` (whatever the
target type, as in the source). -/
def parseIntAs (lo hi : Int) (input : List Nat) :
    Except ParseErr (Int × List Nat) := do
  let (v, rest) ← parseIntLoop input 0 false
  if v < lo ∨ v > hi then .error (.literalOutOfBound v)
  else .ok (v, rest)

/-- `skip_whitespace_and_peek`, as the input with leading ASCII whitespace
removed (the peeked byte is the head of the result). -/
def skipWs : List Nat → List Nat
  | [] => []
  | b :: rest => if isWsB b then skipWs rest else b :: rest

/-- `skip_until(byte)`: consume up to and including the byte; end of input
is an error. -/
def skipUntil (target : Nat) : List Nat → Except ParseErr (List Nat)
  | [] => .error .unexpectedEndOfFile
  | b :: rest => if b == target then .ok rest else skipUntil target rest

/-- `expect(value)`: compare byte-wise; the source zips the expectation with
the input, so a too-short input is accepted (the comparison just stops). -/
def expectBytes : List Nat → List Nat → Except ParseErr (List Nat)
  | [], input => .ok input
  | _ :: _, [] => .ok []
  | e :: es, b :: bs =>
    if b == e then expectBytes es bs else .error .unexpectedChar

/-- `parse_comment_or_header`: skip comments and leading whitespace until
the `p cnf <vars> <clauses>` header; returns the two counts (parsed as
`u32`) and the remaining input. -/
def parseCommentOrHeader (fuel : Nat) (input : List Nat) :
    Except ParseErr (Nat × Nat × List Nat) :=
  match fuel with
  | 0 => .error .missingHeader
  | fuel + 1 =>
    match input with
    | [] => .error .missingHeader
    | b :: rest =>
      if b == 99 then do
        let rest ← skipUntil 10 rest
        parseCommentOrHeader fuel rest
      else if b == 112 then do
        let rest ←
          match expectBytes [32, 99, 110, 102] rest with
          | .ok r => .ok r
          | .error _ => .error (ParseErr.invalidHeader .badStart)
        let rest := skipWs rest
        if rest.isEmpty then .error .unexpectedEndOfFile
        else do
          let (nv, rest) ←
            match parseIntAs 0 4294967295 rest with
            | .ok r => .ok r
            | .error _ => .error (ParseErr.invalidHeader .invalidVariableCount)
          let rest := skipWs rest
          if rest.isEmpty then .error .unexpectedEndOfFile
          else do
            let (nc, rest) ←
              match parseIntAs 0 4294967295 rest with
              | .ok r => .ok r
              | .error _ => .error (ParseErr.invalidHeader .invalidClauseCount)
            .ok (nv.toNat, nc.toNat, rest)
      else if isWsB b then parseCommentOrHeader fuel rest
      else .error .unexpectedChar

/-- `parse_prefix_line` after the quantifier byte: variables until the `0`
terminator; a variable outside `1..=Var::MAX_VAR.to_dimacs()` is
`VariableOutOfBound`. -/
def parsePrefixLine (fuel : Nat) (acc : List Var) (input : List Nat) :
    Except ParseErr (List Var × List Nat) :=
  match fuel with
  | 0 => .error .unexpectedEndOfFile
  | fuel + 1 =>
    let input := skipWs input
    if input.isEmpty then .error .unexpectedEndOfFile
    else do
      let (v, rest) ← parseIntAs (-2147483648) 2147483647 input
      if v == 0 then .ok (acc, rest)
      else if 1 ≤ v ∧ v ≤ Var.toDimacs ⟨Var.MAX_VAR_index⟩ then
        parsePrefixLine fuel (acc ++ [Var.fromDimacs v]) rest
      else .error (.variableOutOfBound v)

/-- `parse_prefix`: `e`/`a` lines until the matrix (a digit or `-`) or the
end of input. -/
def parsePrefixLines (fuel : Nat) (acc : List (QuantTy × List Var))
    (input : List Nat) :
    Except ParseErr (List (QuantTy × List Var) × List Nat) :=
  match fuel with
  | 0 => .error .unexpectedEndOfFile
  | fuel + 1 =>
    let input := skipWs input
    match input with
    | [] => .ok (acc, [])
    | b :: rest =>
      if b == 97 then do
        let (vs, rest) ← parsePrefixLine fuel [] rest
        parsePrefixLines fuel (acc ++ [(QuantTy.Forall, vs)]) rest
      else if b == 101 then do
        let (vs, rest) ← parsePrefixLine fuel [] rest
        parsePrefixLines fuel (acc ++ [(QuantTy.Exists, vs)]) rest
      else if b == 45 || isDigitB b then .ok (acc, b :: rest)
      else .error .unexpectedChar

/-- The literal range test of `parse_matrix`
(`src/qdimacs.rs:246-270`): a nonterminator literal value outside
`Lit::MIN_LIT.to_dimacs() ..= Lit::MAX_LIT.to_dimacs()` is a
`LiteralOutOfBound` error, otherwise the literal is accepted. -/
def checkMatrixLit (v : Int) : Except ParseErr Lit :=
  if Lit.MIN_LIT.toDimacs ≤ v ∧ v ≤ Lit.MAX_LIT.toDimacs then
    .ok (Lit.fromDimacs v)
  else .error (.literalOutOfBound v)

/-- One clause of the matrix: literals until the `0` terminator. -/
def parseClause (fuel : Nat) (acc : List Lit) (input : List Nat) :
    Except ParseErr (List Lit × List Nat) :=
  match fuel with
  | 0 => .error .unexpectedEndOfFile
  | fuel + 1 =>
    let input := skipWs input
    if input.isEmpty then .error .unexpectedEndOfFile
    else do
      let (v, rest) ← parseIntAs (-2147483648) 2147483647 input
      if v == 0 then .ok (acc, rest)
      else do
        let l ← checkMatrixLit v
        parseClause fuel (acc ++ [l]) rest

/-- `parse_matrix`: clauses until the end of input. -/
def parseMatrix (fuel : Nat) (acc : List (List Lit)) (input : List Nat) :
    Except ParseErr (List (List Lit) × List Nat) :=
  match fuel with
  | 0 => .error .unexpectedEndOfFile
  | fuel + 1 =>
    let input := skipWs input
    if input.isEmpty then .ok (acc, input)
    else do
      let (c, rest) ← parseClause (fuel + 1) [] input
      parseMatrix fuel (acc ++ [c]) rest

/-- The parsed representation: the header counts plus the `quantify` and
`add_clause` events in order (this is what a `FromQdimacs` implementor
receives). -/
structure ParsedQdimacs where
  numVariables : Nat
  numClauses : Nat
  pfx : List (QuantTy × List Var)
  matrix : List (List Lit)
  deriving DecidableEq, Repr

/-- `QdimacsParser::parse`: header, prefix, matrix, then the clause-count
check against the header. -/
def parseQdimacs (input : List Nat) : Except ParseErr ParsedQdimacs := do
  let fuel := input.length + 1
  let (nv, nc, rest) ← parseCommentOrHeader fuel input
  let (pfx, rest) ← parsePrefixLines fuel [] rest
  let (matrix, _) ← parseMatrix fuel [] rest
  if matrix.length ≠ nc then .error (.numClausesMismatch nc matrix.length)
  else .ok ⟨nv, nc, pfx, matrix⟩

/-- A Lean string as the byte list it denotes (ASCII inputs only). -/
def strBytes (s : String) : List Nat := s.toList.map Char.toNat

/-! ## Claim C7 -/

/-- The complete fate of one nonzero matrix-literal token with numeric value
`v`: the `i32::try_from` at the end of `parse_int` (range
`[-2^31, 2^31-1]`, failure reported as `LiteralOutOfBound`), then the
`MIN_LIT..=MAX_LIT` range test of `parse_matrix` (`checkMatrixLit`). -/
def matrixLiteralStep (v : Int) : Except ParseErr Lit :=
  if v < -2147483648 ∨ v > 2147483647 then .error (.literalOutOfBound v)
  else checkMatrixLit v

/-- C7 counterexample: the literal value `2^31 - 1 = 2147483647` lies
outside the claimed range `[-2^31+2, 2^31-2]` yet is accepted — both by the
range test itself and by a full parse of a QDIMACS input containing it. -/
theorem literal_range_counterexample :
    checkMatrixLit 2147483647 = .ok (Lit.fromDimacs 2147483647) ∧
    parseQdimacs (strBytes "p cnf 2147483647 1\n2147483647 0\n") =
      .ok ⟨2147483647, 1, [], [[Lit.fromDimacs 2147483647]]⟩ ∧
    ¬ ((2147483647 : Int) ≤ 2 ^ 31 - 2) :=
  ⟨rfl, rfl, by decide⟩

/-- C7 (amended): the parser accepts a nonzero matrix literal iff its value
lies in `[-2^31+1, 2^31-1]` (i.e. `[-2147483647, 2147483647]`, the
`MIN_LIT..=MAX_LIT` range); every literal token outside this range produces
a `LiteralOutOfBound` parse error. -/
theorem matrix_literal_range (v : Int) (hv : v ≠ 0) :
    ((∃ l, matrixLiteralStep v = .ok l) ↔
      (-2147483647 ≤ v ∧ v ≤ 2147483647)) ∧
    (v < -2147483647 ∨ 2147483647 < v →
      matrixLiteralStep v = .error (.literalOutOfBound v)) := by
  have hmin : Lit.MIN_LIT.toDimacs = -2147483647 := by decide
  have hmax : Lit.MAX_LIT.toDimacs = 2147483647 := by decide
  unfold matrixLiteralStep checkMatrixLit
  rw [hmin, hmax]
  constructor
  · constructor
    · rintro ⟨l, hl⟩
      by_cases h1 : v < -2147483648 ∨ v > 2147483647
      · rw [if_pos h1] at hl
        cases hl
      · rw [if_neg h1] at hl
        by_cases h2 : -2147483647 ≤ v ∧ v ≤ 2147483647
        · exact h2
        · rw [if_neg h2] at hl
          cases hl
    · rintro ⟨h1, h2⟩
      refine ⟨Lit.fromDimacs v, ?_⟩
      rw [if_neg (by omega), if_pos ⟨h1, h2⟩]
  · intro h
    rcases h with h | h
    · by_cases hbig : v < -2147483648
      · rw [if_pos (Or.inl hbig)]
      · rw [if_neg (by omega), if_neg (by omega)]
    · rw [if_pos (Or.inr (by omega))]

theorem matrix_literal_range_witness :
    ((∃ l, matrixLiteralStep (-2147483648) = .ok l) ↔
      (-2147483647 ≤ (-2147483648 : Int) ∧ (-2147483648 : Int) ≤ 2147483647)) ∧
    ((-2147483648 : Int) < -2147483647 ∨ (2147483647 : Int) < -2147483648 →
      matrixLiteralStep (-2147483648) =
        .error (.literalOutOfBound (-2147483648))) :=
  matrix_literal_range (-2147483648) (by decide)

/-! ## Building an `IncDet` solver from a parsed QDIMACS instance
(`impl FromQdimacs for IncDet`, `IncDet::_quantify`, `IncDet::_add_clause`
during parsing, when the watch list is still disabled) -/

/-- `BTreeMap::entry(lvl).or_default().push(clause_id)` on a per-literal
implication map (keys kept sorted, as in the B-tree). -/
def addImplication (imp : Implications) (cid : Nat) (lvl : DecLvl) :
    Implications :=
  match imp with
  | [] => [(lvl, [cid])]
  | (k, cs) :: rest =>
    if lvl = k then (k, cs ++ [cid]) :: rest
    else if lvl < k then (lvl, [cid]) :: (k, cs) :: rest
    else (k, cs) :: addImplication rest cid lvl

/-- `Implications::len`: total number of stored clause ids. -/
def implicationsLen (imp : Implications) : Nat :=
  (imp.map fun e => e.2.length).sum

/-- The full parse-time solver state: the core fields of `IncDetS` plus the
Skolem map, the implication graph (total functions over literals, modelling
the `LitVec`s), the function-propagation heap (`VarHeap<usize>`) and the
constant-propagation queue. -/
structure IncDetFull where
  core : IncDetS
  skolem : Lit → Implications
  graph : Lit → List ImplE
  propagationHeap : VarHeapZ
  constantPropagation : List Lit

/-- `IncDet::set_var_count`: record the count and resize the
`VarHeap<usize>` vectors (the function-modelled maps need no resizing). -/
def setVarCountFull (s : IncDetFull) (n : Nat) : IncDetFull :=
  { s with
    core := { s.core with varCount := n },
    propagationHeap :=
      { s.propagationHeap with
        values := s.propagationHeap.values.take n ++
          List.replicate (n - s.propagationHeap.values.length) 0,
        positions := s.propagationHeap.positions.take n ++
          List.replicate (n - s.propagationHeap.positions.length) none } }

/-- The per-variable body of the `for &var in vars` loop of
`IncDet::_quantify`: grow the variable count when needed, bind the variable
to the scope, and when it was bound to a different scope remove it from
that scope's variable list. -/
def quantifyStep (s : IncDetFull) (id : Nat) (v : Var) : IncDetFull :=
  let s := if v.index ≥ s.core.varCount then setVarCountFull s (v.index + 1) else s
  match s.core.varScopes v with
  | none =>
    { s with core :=
      { s.core with varScopes := Function.update s.core.varScopes v (some id) } }
  | some other =>
    if other ≠ id then
      { s with core :=
        { s.core with
          prefixS := s.core.prefixS.map fun sc =>
            if sc.id = other then { sc with vars := sc.vars.filter (· ≠ v) }
            else sc,
          varScopes := Function.update s.core.varScopes v (some id) } }
    else s

/-- `IncDet::_quantify`: extend the last scope when it has the same
quantifier, otherwise push a new scope (its id is its position), then bind
every listed variable. -/
def quantifyFull (s : IncDetFull) (q : QuantTy) (vs : List Var) : IncDetFull :=
  let idAndPfx :=
    match s.core.prefixS.getLast? with
    | some last =>
      if last.quantifier = q then
        (last.id, s.core.prefixS.dropLast ++ [{ last with vars := last.vars ++ vs }])
      else
        (s.core.prefixS.length,
          s.core.prefixS ++ [ScopeS.mk s.core.prefixS.length q vs])
    | none =>
      (s.core.prefixS.length,
        s.core.prefixS ++ [ScopeS.mk s.core.prefixS.length q vs])
  let s := { s with core := { s.core with prefixS := idAndPfx.2 } }
  vs.foldl (fun st v => quantifyStep st idAndPfx.1 v) s

/-- `IncDet::_add_clause` as invoked at parse time (the watch list is
enabled only later, inside `_solve`, so the watch-selection branch of the
long-clause case — `src/incdet.rs:231-265` — is unreachable here and
omitted): assert that all variables are bound, sort and deduplicate,
discard tautologies, apply universal reduction (setting `conflicted` on an
empty reduct), allocate the clause, and for a clause with exactly one
existential literal record the Skolem implication at `ROOT`, queue the
variable on the function-propagation heap and add the implication-graph
edges for its universal literals; all other clauses go to the long-clause
list. -/
def addClauseFull (s : IncDetFull) (lits0 : List Lit) :
    Except String IncDetFull :=
  if !(lits0.all fun l => (s.core.varScopes l.var).isSome) then
    .error "unbound variables are not supported"
  else
    let lits := sortDedup lits0
    if isTautology lits then .ok s
    else
      let pq := s.core.prefixS.map (·.quantifier)
      let scopeOf : Var → Nat := fun v => (s.core.varScopes v).getD 0
      let reduced := universalReduce pq scopeOf lits
      let s :=
        if reduced.2 then { s with core := { s.core with conflicted := true } }
        else s
      let lits := reduced.1
      let cid := s.core.allocator.length
      let s := { s with core := { s.core with allocator := s.core.allocator ++ [lits] } }
      match lits.filter fun l => isExistentialAt pq (scopeOf l.var) with
      | [lit] =>
        let sk := Function.update s.skolem lit (addImplication (s.skolem lit) cid 0)
        let prio := implicationsLen (sk lit) + implicationsLen (sk lit.negated)
        let prop := s.propagationHeap.addAndSet lit.var (prio : Int)
        let gr := Function.update s.graph lit
          ((s.graph lit) ++
            (lits.filter fun l => isUniversalAt pq (scopeOf l.var)).map
              fun u => ImplE.mk u.negated cid 0)
        .ok { s with skolem := sk, propagationHeap := prop, graph := gr }
      | _ =>
        .ok { s with core := { s.core with clauses := s.core.clauses ++ [cid] } }

/-- The empty solver (`IncDet::default`). -/
def incdetInit : IncDetFull :=
  ⟨⟨0, fun _ => none, [], [], [], false⟩, fun _ => [], fun _ => [], ⟨[], [], []⟩, []⟩

/-- Replaying a parsed QDIMACS instance through `impl FromQdimacs for
IncDet`: `set_num_variables`, then the `quantify` events, then the
`add_clause` events, in parse order. -/
def incdetOfParsed (p : ParsedQdimacs) : Except String IncDetFull := do
  let s := setVarCountFull incdetInit p.numVariables
  let s := p.pfx.foldl (fun st pr => quantifyFull st pr.1 pr.2) s
  p.matrix.foldlM addClauseFull s

/-! ## Claim C8 -/

/-- C8 fails on the code: parsing the header-only input `p cnf 1 0`
succeeds (one declared variable, empty prefix, empty matrix), but solving
panics instead of returning `Satisfiable`: `build_vsids_heap` calls
`VarData::scope` on the never-quantified variable 1, whose `scope` is
`None`, hitting the `expect("all variables are bound")`. (Only `n = 0`
reaches the search loop and returns `Satisfiable`.) -/
theorem empty_matrix_solve_panics :
    parseQdimacs (strBytes "p cnf 1 0") = .ok ⟨1, 0, [], []⟩ ∧
    (incdetOfParsed ⟨1, 0, [], []⟩).map (fun s => solveHeader s.core) =
      .ok (.error "all variables are bound") := by
  constructor
  · rfl
  · rfl

/-! ## `QCNF` and its `Display` implementation (`src/qcnf.rs`) -/

/-- `QCNF`: the straight-forward representation filled by `FromQdimacs`
(its `set_num_variables`/`set_num_clauses` are no-ops; `quantify` and
`add_clause` push). -/
structure QCNFS where
  pfx : List (QuantTy × List Var)
  matrix : List (List Lit)
  deriving DecidableEq, Repr

/-- A parsed instance as the `QCNF` the parser would have produced. -/
def qcnfOfParsed (p : ParsedQdimacs) : QCNFS := ⟨p.pfx, p.matrix⟩

/-- Decimal rendering of a `Nat` (Rust `Display` of `u32`). -/
def natToBytes (n : Nat) : List Nat := (Nat.toDigits 10 n).map Char.toNat

/-- Rust `Display` of a signed integer. -/
def intToBytes (v : Int) : List Nat :=
  if v < 0 then 45 :: natToBytes (-v).toNat else natToBytes v.toNat

/-- `Vec::join(" ")` on rendered pieces. -/
def joinSpace : List (List Nat) → List Nat
  | [] => []
  | [x] => x
  | x :: xs => x ++ [32] ++ joinSpace xs

/-- `QCNF::num_variables`: the maximum over the *signed* dimacs values of
all prefix variables and all matrix literals (`unwrap_or_default`, i.e. `0`,
when there are none), converted to `u32` with `try_into().unwrap()` — a
panic when the maximum is negative. -/
def QCNFS.numVariablesE (q : QCNFS) : Except String Nat :=
  let vals : List Int :=
    ((q.pfx.map fun p => p.2.map Var.toDimacs).flatten) ++
      ((q.matrix.map fun c => c.map Lit.toDimacs).flatten)
  match iterMaxInt vals with
  | none => .ok 0
  | some m => if m < 0 then .error "u32 try_from failed" else .ok m.toNat

/-- The quantifier byte of `Display for QuantTy`. -/
def quantByte : QuantTy → Nat
  | .Exists => 101
  | .Forall => 97

/-- `Display for QCNF`: the `p cnf <vars> <clauses>` header, one
`<q> <vars joined by spaces> 0` line per prefix entry, then one
`<lit> <lit> ... 0` line per clause (each literal followed by a space).
The `num_variables` computation can panic (see `QCNFS.numVariablesE`). -/
def QCNFS.printBytes (q : QCNFS) : Except String (List Nat) := do
  let nv ← q.numVariablesE
  let header := [112, 32, 99, 110, 102, 32] ++ natToBytes nv ++ [32] ++
    natToBytes q.matrix.length ++ [10]
  let pfxLines := (q.pfx.map fun p =>
    [quantByte p.1, 32] ++
      joinSpace (p.2.map fun v => intToBytes v.toDimacs) ++ [32, 48, 10]).flatten
  let clauseLines := (q.matrix.map fun c =>
    (c.map fun l => intToBytes l.toDimacs ++ [32]).flatten ++ [48, 10]).flatten
  .ok (header ++ pfxLines ++ clauseLines)

/-! ## Claim C9 -/

def qcnfNegOnly : QCNFS := ⟨[], [[Lit.fromDimacs (-1)]]⟩

/-- C9 fails on the code: the input `p cnf 1 1\n-1 0\n` parses to the QCNF
with empty prefix and single clause `[-1]`, but pretty-printing that value
panics — `QCNF::num_variables` takes the maximum of the *signed* dimacs
literal values, here `-1`, and `(-1).try_into::<u32>().unwrap()` fails — so
parse → print → parse is not the identity on this parsed representation
(the print step does not even produce text). -/
theorem qcnf_print_panics_on_parsed :
    parseQdimacs (strBytes "p cnf 1 1\n-1 0\n") =
      .ok ⟨1, 1, [], [[Lit.fromDimacs (-1)]]⟩ ∧
    qcnfOfParsed ⟨1, 1, [], [[Lit.fromDimacs (-1)]]⟩ = qcnfNegOnly ∧
    QCNFS.printBytes qcnfNegOnly = .error "u32 try_from failed" :=
  ⟨rfl, rfl, rfl⟩

/-- Supporting evidence (not itself a claim): on an input whose maximum
signed dimacs value is positive, parse → print → parse is the identity,
e.g. for the repo's own two-clause 2QBF example. -/
theorem qcnf_roundtrip_example :
    (do
      let p ← (parseQdimacs
        (strBytes "p cnf 2 2\na 1 0\ne 2 0\n1 -2 0\n-1 2 0\n")).mapError
          (fun _ => "parse error")
      let printed ← (qcnfOfParsed p).printBytes
      let p2 ← (parseQdimacs printed).mapError (fun _ => "parse error")
      pure (qcnfOfParsed p2 = qcnfOfParsed p : Bool)) = .ok true := by
  rfl

end Booleanium
